import Mathlib

/-!
A shallow embedding of the document-structure core of the TXTtoEPUB
repository (`src/main.py`): the `MultiLevelBook` ordered tree of volumes,
chapters and content lines; the line classifier built on the regex
`TITLE_PATTERN_SIMPLE`; the parsing loop of `TextBookParser.read`; and the
trailing-pruning pass that runs after the input is exhausted.  Python lists
of dicts become Lean structures over `List`; mutation of `volumes[-1]`
becomes `modifyLast`; the I/O of `read` is modelled by an event stream
(each event is either a decoded line or a raised read error) plus an
`opened` flag for `FileNotFoundError`.
-/

set_option maxRecDepth 4096

namespace TxtToEpub

/-- Constant `DEFAULT_VOLUME_TITLE` of `src/main.py`. -/
def DEFAULT_VOLUME_TITLE : String := "默认卷"

/-- Constant `DEFAULT_CHAPTER_TITLE` of `src/main.py`. -/
def DEFAULT_CHAPTER_TITLE : String := "开篇"

/-- A chapter dict: `{'title': ..., 'content': [...]}`. -/
structure Chapter where
  title : String
  content : List String
deriving DecidableEq

/-- A volume dict: `{'title': ..., 'chapters': [...]}`. -/
structure Volume where
  title : String
  chapters : List Chapter
deriving DecidableEq

/-- The `MultiLevelBook` object: its `volumes` list. -/
structure MultiLevelBook where
  volumes : List Volume
deriving DecidableEq

/-- Apply `f` to the last element of a list (Python mutation of `xs[-1]`);
the empty list is unchanged. -/
def modifyLast {α : Type} (f : α → α) : List α → List α
  | [] => []
  | [a] => [f a]
  | a :: b :: rest => a :: modifyLast f (b :: rest)

/-- Characters treated as whitespace by Python `str.strip` and by the
regex class `[\s　]` on unicode strings (the repertoire relevant to
this development; both Python sets agree on every character below). -/
def isPySpace (c : Char) : Bool :=
  c = ' ' || c = '\t' || c = '\n' || c = '\r' || c = '\u000B' || c = '\u000C' ||
  c = '\u0085' || c = '\u00A0' || c = '\u1680' ||
  ('\u2000' ≤ c && c ≤ '\u200A') ||
  c = '\u2028' || c = '\u2029' || c = '\u202F' || c = '\u205F' || c = '\u3000'

/-- Python `str.strip()`: remove leading and trailing whitespace. -/
def pyStrip (s : String) : String :=
  String.mk (((s.toList.dropWhile isPySpace).reverse.dropWhile isPySpace).reverse)

/-- The numeral character class `[0-9一二三四五六七八九十零〇百千两]` of
`TITLE_PATTERN_SIMPLE`. -/
def numeralChars : List Char := "0123456789一二三四五六七八九十零〇百千两".toList

/-- The unit character class `[章回部节集卷篇辑]` of `TITLE_PATTERN_SIMPLE`. -/
def unitChars : List Char := "章回部节集卷篇辑".toList

/-- Membership in the numeral character class. -/
def isNumeralChar (c : Char) : Bool := decide (c ∈ numeralChars)

/-- Membership in the unit character class. -/
def isUnitChar (c : Char) : Bool := decide (c ∈ unitChars)

/-- `re.match(TITLE_PATTERN_SIMPLE, line)` viewed as a boolean:
`^[\s　]*[第卷][0-9一二三四五六七八九十零〇百千两]+[章回部节集卷篇辑][\s　]*.*`.
The numeral class and the unit class are disjoint, so the greedy
maximal-run match below is equivalent to the regex backtracking
semantics; the trailing `[\s　]*.*` matches any remainder of a
newline-free line. -/
def matchesTitleSimple (cs : List Char) : Bool :=
  match cs.dropWhile isPySpace with
  | [] => false
  | c :: rest =>
    (c = '第' || c = '卷') &&
    !(rest.takeWhile isNumeralChar).isEmpty &&
    (match rest.dropWhile isNumeralChar with
     | d :: _ => isUnitChar d
     | [] => false)

/-- The initial default chapter `{'title': DEFAULT_CHAPTER_TITLE, 'content': []}`. -/
def defaultChapter : Chapter := ⟨DEFAULT_CHAPTER_TITLE, []⟩

/-- The initial default volume with its single default chapter. -/
def defaultVolume : Volume := ⟨DEFAULT_VOLUME_TITLE, [defaultChapter]⟩

/-- `MultiLevelBook.__init__`, which calls `_create_default_structure`
on an empty volume list. -/
def MultiLevelBook.init : MultiLevelBook := ⟨[defaultVolume]⟩

/-- `_create_default_structure`: appends the default volume/chapter pair
only when `volumes` is completely empty. -/
def createDefaultStructure (b : MultiLevelBook) : MultiLevelBook :=
  if b.volumes.isEmpty then ⟨b.volumes ++ [defaultVolume]⟩ else b

/-- `_is_initial_default_volume_empty`. -/
def isInitialDefaultVolumeEmpty (b : MultiLevelBook) : Bool :=
  match b.volumes with
  | [v] =>
    v.title == DEFAULT_VOLUME_TITLE &&
    (match v.chapters with
     | [c] => c.title == DEFAULT_CHAPTER_TITLE && c.content.isEmpty
     | _ => false)
  | _ => false

/-- `_is_last_volume_chapterless`: `self.volumes and not self.volumes[-1]['chapters']`. -/
def isLastVolumeChapterless (b : MultiLevelBook) : Bool :=
  match b.volumes.getLast? with
  | some v => v.chapters.isEmpty
  | none => false

/-- `_is_last_chapter_default_and_empty`, phrased on the volume it
inspects (the call sites always pass `volumes[-1]`). -/
def lastChapterDefaultAndEmpty (v : Volume) : Bool :=
  match v.chapters.getLast? with
  | some c => c.title == DEFAULT_CHAPTER_TITLE && c.content.isEmpty
  | none => false

/-- `add_volume`: rename the pristine seeded volume in place, otherwise
append a fresh volume with no chapters (the chapterless-previous-volume
check only logs a warning and has no effect on the data). -/
def addVolume (title : String) (b : MultiLevelBook) : MultiLevelBook :=
  if isInitialDefaultVolumeEmpty b then
    match b.volumes with
    | [] => b
    | v :: rest => ⟨{ v with title := title } :: rest⟩
  else ⟨b.volumes ++ [⟨title, []⟩]⟩

/-- `add_chapter_to_last_volume` (the caller in `read` always passes
`content = None`, i.e. `[]`).  If the last volume has no chapters, or its
last chapter is the empty default one, the slot is set/replaced;
otherwise a new chapter is appended. -/
def addChapterToLastVolume (title : String) (content : List String)
    (b : MultiLevelBook) : MultiLevelBook :=
  let b := createDefaultStructure b
  ⟨modifyLast (fun v =>
      if v.chapters.isEmpty || lastChapterDefaultAndEmpty v then
        if v.chapters.isEmpty then
          { v with chapters := v.chapters ++ [⟨title, content⟩] }
        else
          { v with chapters := modifyLast (fun _ => ⟨title, content⟩) v.chapters }
      else { v with chapters := v.chapters ++ [⟨title, content⟩] }) b.volumes⟩

/-- `add_content_to_last_chapter`: after the defensive recovery paths
(create the default structure if no volumes exist; add a default chapter
if the last volume is chapterless) the line is appended to the last
chapter of the last volume.  The `IndexError` handler in the source is
unreachable after those checks. -/
def addContentToLastChapter (line : String) (b : MultiLevelBook) : MultiLevelBook :=
  let b := createDefaultStructure b
  let b := if isLastVolumeChapterless b then
             addChapterToLastVolume DEFAULT_CHAPTER_TITLE [] b
           else b
  ⟨modifyLast (fun v =>
      { v with chapters :=
          modifyLast (fun c => { c with content := c.content ++ [line] }) v.chapters })
    b.volumes⟩

/-- The pop in `read` just before a new volume is added: if the last
volume has a last chapter with no content, remove it (regardless of its
title). -/
def popEmptyLastChapter (b : MultiLevelBook) : MultiLevelBook :=
  match b.volumes.getLast? with
  | some v =>
    match v.chapters.getLast? with
    | some c =>
      if c.content.isEmpty then
        ⟨modifyLast (fun w => { w with chapters := w.chapters.dropLast }) b.volumes⟩
      else b
    | none => b
  | none => b

/-- The per-line classification of the loop body of `TextBookParser.read`:
blank lines are skipped; a line matching `TITLE_PATTERN_SIMPLE` is a
volume title when it contains `卷` and none of `章`, `回`, `节`, else a
chapter title; anything else is content. -/
inductive LineClass where
  | blank
  | volumeTitle
  | chapterTitle
  | contentLine
deriving DecidableEq

/-- The substring heuristic of `read` that separates volume titles from
chapter titles. -/
def isVolumeHeuristic (s : String) : Bool :=
  s.toList.contains '卷' &&
  !(s.toList.contains '章') && !(s.toList.contains '回') && !(s.toList.contains '节')

/-- The branch structure of the loop body of `TextBookParser.read`
(strip, skip blanks, regex match, volume/chapter heuristic). -/
def classifyLine (raw : String) : LineClass :=
  let line := pyStrip raw
  if line.isEmpty then LineClass.blank
  else if matchesTitleSimple line.toList then
    if isVolumeHeuristic line then LineClass.volumeTitle else LineClass.chapterTitle
  else LineClass.contentLine

/-- One iteration of the loop of `TextBookParser.read`, acting on the
book state: the stripped line is used as the full candidate title or as
the content line. -/
def processLine (b : MultiLevelBook) (raw : String) : MultiLevelBook :=
  let line := pyStrip raw
  match classifyLine raw with
  | LineClass.blank => b
  | LineClass.volumeTitle => addVolume line (popEmptyLastChapter b)
  | LineClass.chapterTitle => addChapterToLastVolume line [] b
  | LineClass.contentLine => addContentToLastChapter line b

/-- The final check of `TextBookParser.read`: remove a trailing empty
default chapter (title equal to either sentinel, content empty), then
remove the last volume when it ended up chapterless, carries the default
volume title, and more than one volume exists. -/
def prune (b : MultiLevelBook) : MultiLevelBook :=
  match b.volumes.getLast? with
  | none => b
  | some v =>
    let b1 : MultiLevelBook :=
      match v.chapters.getLast? with
      | some c =>
        if c.content.isEmpty &&
           (c.title == DEFAULT_CHAPTER_TITLE || c.title == DEFAULT_VOLUME_TITLE) then
          ⟨modifyLast (fun w => { w with chapters := w.chapters.dropLast }) b.volumes⟩
        else b
      | none => b
    match b1.volumes.getLast? with
    | some w =>
      if w.chapters.isEmpty && w.title == DEFAULT_VOLUME_TITLE &&
         decide (1 < b1.volumes.length) then
        ⟨b1.volumes.dropLast⟩
      else b1
    | none => b1

/-- The pure part of `TextBookParser.read` on an already decoded list of
lines: the per-line loop starting from the seeded default structure,
followed by the trailing pruning pass. -/
def parseLines (lines : List String) : MultiLevelBook :=
  prune (lines.foldl processLine MultiLevelBook.init)

/-- One event of the input stream of `TextBookParser.read`: either a
successfully decoded line, or a read/decode error raised mid-stream. -/
inductive ReadEvent where
  | line (s : String)
  | err
deriving DecidableEq

/-- The `try` body of `TextBookParser.read`: consume events; a raised
error aborts the whole parse and the `except` handler returns `none`,
discarding the half-built book; at end of input the pruned book is
returned. -/
def readLoop (b : MultiLevelBook) : List ReadEvent → Option MultiLevelBook
  | [] => some (prune b)
  | ReadEvent.line s :: rest => readLoop (processLine b s) rest
  | ReadEvent.err :: _ => none

/-- `TextBookParser.read`: `opened = false` models `FileNotFoundError`
on `open` (the handler returns `None`); otherwise the event stream is
consumed by the loop. -/
def TextBookParser.read (opened : Bool) (events : List ReadEvent) :
    Option MultiLevelBook :=
  if opened then readLoop MultiLevelBook.init events else none

/-- The claim C5 marker shape, modelled from the spec sentence alone for
comparison with `matchesTitleSimple`: optional leading whitespace, then a
numeral run immediately followed by a unit character, then arbitrary
trailing text — with no requirement of a leading `第`/`卷`. -/
def specMarkerShape (cs : List Char) : Bool :=
  let u := cs.dropWhile isPySpace
  !(u.takeWhile isNumeralChar).isEmpty &&
  (match u.dropWhile isNumeralChar with
   | d :: _ => isUnitChar d
   | [] => false)

/-- Concatenation of the content lines of one volume, chapters in order. -/
def volumeContent (v : Volume) : List String :=
  (v.chapters.map Chapter.content).flatten

/-- Concatenation of all content lines of a book in hierarchy traversal
order: volumes in sequence, chapters within each volume in sequence. -/
def flattenBook (b : MultiLevelBook) : List String :=
  (b.volumes.map volumeContent).flatten

/-! ### List helper lemmas -/

theorem modifyLast_concat {α : Type} (f : α → α) (xs : List α) (a : α) :
    modifyLast f (xs ++ [a]) = xs ++ [f a] := by
  induction xs with
  | nil => rfl
  | cons x xs ih =>
    cases xs with
    | nil => rfl
    | cons y ys =>
      show x :: modifyLast f (y :: ys ++ [a]) = x :: (y :: ys ++ [f a])
      rw [ih]

theorem back_cases {α : Type} (l : List α) : l = [] ∨ ∃ xs x, l = xs ++ [x] := by
  rcases List.eq_nil_or_concat l with h | ⟨xs, x, h⟩
  · exact Or.inl h
  · exact Or.inr ⟨xs, x, by simpa [List.concat_eq_append] using h⟩

theorem dropWhile_head_false {α : Type} (p : α → Bool) (l : List α) (a : α)
    (t : List α) (h : l.dropWhile p = a :: t) : p a = false := by
  induction l with
  | nil => simp at h
  | cons x xs ih =>
    by_cases hx : p x = true
    · rw [List.dropWhile_cons, if_pos hx] at h
      exact ih h
    · rw [List.dropWhile_cons, if_neg hx] at h
      cases h
      simpa using hx

theorem dropWhile_append_all {α : Type} (p : α → Bool) (ws l : List α)
    (h : ∀ c ∈ ws, p c = true) : (ws ++ l).dropWhile p = l.dropWhile p := by
  induction ws with
  | nil => rfl
  | cons w ws ih =>
    have hw : p w = true := h w (by simp)
    simp only [List.cons_append, List.dropWhile_cons, hw, if_pos]
    exact ih (fun c hc => h c (by simp [hc]))

theorem takeWhile_append_run {α : Type} (p : α → Bool) (ns t : List α) (d : α)
    (hns : ∀ c ∈ ns, p c = true) (hd : p d = false) :
    (ns ++ d :: t).takeWhile p = ns ∧ (ns ++ d :: t).dropWhile p = d :: t := by
  induction ns with
  | nil => simp [List.takeWhile_cons, List.dropWhile_cons, hd]
  | cons n ns ih =>
    have hn : p n = true := hns n (by simp)
    have ih2 := ih (fun c hc => hns c (by simp [hc]))
    simp only [List.cons_append, List.takeWhile_cons, List.dropWhile_cons, hn, if_pos]
    exact ⟨by rw [ih2.1], by rw [ih2.2]⟩

/-! ### Flatten lemmas: no operation of the builder ever drops a content
line, and content lines are always appended at the very end of the
hierarchy traversal order. -/

theorem volumeContent_mk (t : String) (cs : List Chapter) :
    volumeContent ⟨t, cs⟩ = (cs.map Chapter.content).flatten := rfl

theorem volumeContent_concat (t : String) (cs : List Chapter) (c : Chapter) :
    volumeContent ⟨t, cs ++ [c]⟩ = volumeContent ⟨t, cs⟩ ++ c.content := by
  simp [volumeContent, List.flatten_append]

theorem flattenBook_concat (vs : List Volume) (v : Volume) :
    flattenBook ⟨vs ++ [v]⟩ = flattenBook ⟨vs⟩ ++ volumeContent v := by
  simp [flattenBook, List.flatten_append]

theorem flattenBook_cons (v : Volume) (vs : List Volume) :
    flattenBook ⟨v :: vs⟩ = volumeContent v ++ flattenBook ⟨vs⟩ := by
  simp [flattenBook]

theorem volumeContent_title (v : Volume) (t : String) :
    volumeContent { v with title := t } = volumeContent v := rfl

theorem flatten_createDefault (b : MultiLevelBook) :
    flattenBook (createDefaultStructure b) = flattenBook b := by
  unfold createDefaultStructure
  split
  · next h =>
    obtain ⟨vs⟩ := b
    simp only [List.isEmpty_iff] at h
    subst h
    simp [flattenBook, volumeContent, defaultVolume, defaultChapter]
  · rfl

theorem createDefault_ne (b : MultiLevelBook) (h : b.volumes ≠ []) :
    createDefaultStructure b = b := by
  unfold createDefaultStructure
  simp [List.isEmpty_iff, h]

theorem flatten_addVolume (t : String) (b : MultiLevelBook) :
    flattenBook (addVolume t b) = flattenBook b := by
  unfold addVolume
  split
  · obtain ⟨vs⟩ := b
    cases vs with
    | nil => rfl
    | cons v rest => simp [flattenBook_cons, volumeContent_title]
  · rw [flattenBook_concat]
    simp [volumeContent]

theorem flatten_popEmptyLastChapter (b : MultiLevelBook) :
    flattenBook (popEmptyLastChapter b) = flattenBook b := by
  unfold popEmptyLastChapter
  rcases back_cases b.volumes with hb | ⟨vs, v, hb⟩
  · rw [hb]; rfl
  · obtain ⟨bvs⟩ := b
    simp only at hb
    subst hb
    obtain ⟨vt, cs⟩ := v
    rcases back_cases cs with hc | ⟨ds, d, hc⟩
    · subst hc
      simp [List.getLast?_concat]
    · subst hc
      simp only [List.getLast?_concat]
      split
      · next hemp =>
        simp only [List.isEmpty_iff] at hemp
        rw [modifyLast_concat]
        simp only [List.dropLast_concat]
        rw [flattenBook_concat, flattenBook_concat, volumeContent_concat, hemp]
        simp
      · rfl

theorem flatten_addChapter (t : String) (b : MultiLevelBook) :
    flattenBook (addChapterToLastVolume t [] b) = flattenBook b := by
  unfold addChapterToLastVolume
  dsimp only
  rw [← flatten_createDefault b]
  generalize createDefaultStructure b = B
  obtain ⟨vs⟩ := B
  rcases back_cases vs with hb | ⟨ws, w, hb⟩
  · subst hb; rfl
  · subst hb
    rw [modifyLast_concat, flattenBook_concat, flattenBook_concat]
    congr 1
    obtain ⟨wt, cs⟩ := w
    rcases back_cases cs with hc | ⟨ds, d, hc⟩
    · subst hc
      simp [volumeContent, List.flatten_append]
    · subst hc
      have hne : ((ds ++ [d] : List Chapter)).isEmpty = false := by
        simp [List.isEmpty_iff]
      simp only [hne, Bool.false_or, if_neg Bool.false_ne_true]
      split
      · next hdef =>
        unfold lastChapterDefaultAndEmpty at hdef
        simp only [List.getLast?_concat] at hdef
        have hdc : d.content = [] := by
          have := (Bool.and_eq_true _ _).mp hdef
          simpa [List.isEmpty_iff] using this.2
        rw [modifyLast_concat]
        rw [volumeContent_concat, volumeContent_concat, hdc]
      · rw [volumeContent_concat, volumeContent_concat]
        simp [volumeContent]

theorem flatten_addContent (line : String) (b : MultiLevelBook) :
    flattenBook (addContentToLastChapter line b) = flattenBook b ++ [line] := by
  unfold addContentToLastChapter
  dsimp only
  rw [← flatten_createDefault b]
  have hne : (createDefaultStructure b).volumes ≠ [] := by
    obtain ⟨vs⟩ := b
    unfold createDefaultStructure
    cases vs <;> simp
  generalize hB : createDefaultStructure b = B at hne ⊢
  clear hB b
  -- after the chapterless guard the last volume has at least one chapter
  rcases back_cases B.volumes with hb | ⟨ws, w, hb⟩
  · exact absurd hb hne
  · obtain ⟨vs⟩ := B
    simp only at hb
    subst hb
    obtain ⟨wt, cs⟩ := w
    rcases back_cases cs with hc | ⟨ds, d, hc⟩
    · subst hc
      have hch : isLastVolumeChapterless ⟨ws ++ [⟨wt, []⟩]⟩ = true := by
        simp [isLastVolumeChapterless, List.getLast?_concat]
      rw [if_pos hch]
      unfold addChapterToLastVolume
      dsimp only
      rw [createDefault_ne _ (by simp), modifyLast_concat]
      simp only [List.isEmpty_nil, Bool.true_or, if_true, List.nil_append]
      rw [modifyLast_concat, flattenBook_concat, flattenBook_concat]
      simp [volumeContent, modifyLast]
    · subst hc
      have hch : isLastVolumeChapterless ⟨ws ++ [⟨wt, ds ++ [d]⟩]⟩ = false := by
        simp [isLastVolumeChapterless, List.getLast?_concat, List.isEmpty_iff]
      rw [if_neg (by simp [hch])]
      rw [modifyLast_concat, modifyLast_concat]
      rw [flattenBook_concat, flattenBook_concat, volumeContent_concat, volumeContent_concat]
      simp

/-! ### Shape of the trailing-pruning pass on a decomposed last volume -/

theorem prune_concat_nilch (vs : List Volume) (t : String) :
    prune ⟨vs ++ [⟨t, []⟩]⟩ =
      if t = DEFAULT_VOLUME_TITLE ∧ vs ≠ [] then ⟨vs⟩ else ⟨vs ++ [⟨t, []⟩]⟩ := by
  unfold prune
  dsimp only
  simp only [List.getLast?_concat]
  dsimp only
  by_cases h1 : t = DEFAULT_VOLUME_TITLE
  · by_cases h2 : vs = []
    · subst h2
      simp [h1]
    · have hpos : 0 < vs.length := List.length_pos.mpr h2
      have hlen : decide (1 < (vs ++ [(⟨t, []⟩ : Volume)]).length) = true := by
        simp only [List.length_append, List.length_cons, List.length_nil]
        simp only [decide_eq_true_eq]
        omega
      simp [h1, h2, hlen, List.dropLast_concat]
  · simp [h1]

theorem prune_concat_chapter (vs : List Volume) (t : String) (cs : List Chapter)
    (c : Chapter) :
    prune ⟨vs ++ [⟨t, cs ++ [c]⟩]⟩ =
      if c.content = [] ∧ (c.title = DEFAULT_CHAPTER_TITLE ∨ c.title = DEFAULT_VOLUME_TITLE) then
        (if cs = [] ∧ t = DEFAULT_VOLUME_TITLE ∧ vs ≠ [] then ⟨vs⟩ else ⟨vs ++ [⟨t, cs⟩]⟩)
      else ⟨vs ++ [⟨t, cs ++ [c]⟩]⟩ := by
  unfold prune
  dsimp only
  simp only [List.getLast?_concat]
  by_cases hcond : c.content = [] ∧
      (c.title = DEFAULT_CHAPTER_TITLE ∨ c.title = DEFAULT_VOLUME_TITLE)
  · have hbool : (c.content.isEmpty &&
        (c.title == DEFAULT_CHAPTER_TITLE || c.title == DEFAULT_VOLUME_TITLE)) = true := by
      rcases hcond with ⟨h1, h2⟩
      rcases h2 with h2 | h2 <;> simp [List.isEmpty_iff, h1, h2]
    rw [if_pos hbool, if_pos hcond]
    rw [modifyLast_concat]
    simp only [List.dropLast_concat, List.getLast?_concat]
    by_cases h3 : cs = [] ∧ t = DEFAULT_VOLUME_TITLE ∧ vs ≠ []
    · rcases h3 with ⟨h3a, h3b, h3c⟩
      have hpos : 0 < vs.length := List.length_pos.mpr h3c
      have hlen : decide (1 < (vs ++ [(⟨t, cs⟩ : Volume)]).length) = true := by
        simp only [List.length_append, List.length_cons, List.length_nil,
          decide_eq_true_eq]
        omega
      rw [if_pos (by simp [h3a, h3b]; omega), if_pos ⟨h3a, h3b, h3c⟩]
    · rw [if_neg h3]
      rw [if_neg ?hneg]
      case hneg =>
        intro hb
        apply h3
        have h1 := (Bool.and_eq_true _ _).mp hb
        have h2 := (Bool.and_eq_true _ _).mp h1.1
        refine ⟨by simpa [List.isEmpty_iff] using h2.1, by simpa using h2.2, ?_⟩
        intro hvs
        subst hvs
        have := h1.2
        simp at this
  · have hbool : ¬((c.content.isEmpty &&
        (c.title == DEFAULT_CHAPTER_TITLE || c.title == DEFAULT_VOLUME_TITLE)) = true) := by
      intro h
      apply hcond
      have h1 := (Bool.and_eq_true _ _).mp h
      have h2 := (Bool.or_eq_true _ _).mp h1.2
      refine ⟨by simpa [List.isEmpty_iff] using h1.1, ?_⟩
      rcases h2 with h2 | h2
      · exact Or.inl (by simpa using h2)
      · exact Or.inr (by simpa using h2)
    rw [if_neg hbool, if_neg hcond]
    simp only [List.getLast?_concat]
    rw [if_neg ?hneg2]
    case hneg2 =>
      intro hb
      have h1 := (Bool.and_eq_true _ _).mp hb
      have h2 := (Bool.and_eq_true _ _).mp h1.1
      have : ((cs ++ [c] : List Chapter)).isEmpty = true := h2.1
      simp [List.isEmpty_iff] at this

theorem prune_nil : prune ⟨[]⟩ = ⟨[]⟩ := rfl

theorem flatten_prune (b : MultiLevelBook) : flattenBook (prune b) = flattenBook b := by
  rcases back_cases b.volumes with hb | ⟨vs, v, hb⟩
  · obtain ⟨bvs⟩ := b
    simp only at hb
    subst hb
    rw [prune_nil]
  · obtain ⟨bvs⟩ := b
    simp only at hb
    subst hb
    obtain ⟨vt, cs⟩ := v
    rcases back_cases cs with hc | ⟨ds, d, hc⟩
    · subst hc
      rw [prune_concat_nilch]
      split
      · next h =>
        rw [flattenBook_concat]
        simp [volumeContent]
      · rfl
    · subst hc
      rw [prune_concat_chapter]
      by_cases h1 : d.content = [] ∧
          (d.title = DEFAULT_CHAPTER_TITLE ∨ d.title = DEFAULT_VOLUME_TITLE)
      · rw [if_pos h1]
        have hflat : flattenBook ⟨vs ++ [⟨vt, ds⟩]⟩ =
            flattenBook ⟨vs ++ [⟨vt, ds ++ [d]⟩]⟩ := by
          rw [flattenBook_concat, flattenBook_concat, volumeContent_concat, h1.1]
          simp
        split
        · next h2 =>
          rw [← hflat, flattenBook_concat]
          simp [h2.1, volumeContent]
        · exact hflat
      · rw [if_neg h1]

/-! ### Inversion of the line classifier -/

theorem classifyLine_blank_iff (raw : String) :
    classifyLine raw = LineClass.blank ↔ (pyStrip raw).isEmpty = true := by
  unfold classifyLine
  dsimp only
  split_ifs <;> simp_all

theorem classifyLine_volume_iff (raw : String) :
    classifyLine raw = LineClass.volumeTitle ↔
      (pyStrip raw).isEmpty = false ∧ matchesTitleSimple (pyStrip raw).toList = true ∧
      isVolumeHeuristic (pyStrip raw) = true := by
  unfold classifyLine
  dsimp only
  split_ifs <;> simp_all

theorem classifyLine_chapter_iff (raw : String) :
    classifyLine raw = LineClass.chapterTitle ↔
      (pyStrip raw).isEmpty = false ∧ matchesTitleSimple (pyStrip raw).toList = true ∧
      isVolumeHeuristic (pyStrip raw) = false := by
  unfold classifyLine
  dsimp only
  split_ifs <;> simp_all

theorem classifyLine_content_iff (raw : String) :
    classifyLine raw = LineClass.contentLine ↔
      (pyStrip raw).isEmpty = false ∧ matchesTitleSimple (pyStrip raw).toList = false := by
  unfold classifyLine
  dsimp only
  split_ifs <;> simp_all

/-- What one loop iteration contributes to the flattened content: the
stripped line when it is neither blank nor a structural marker,
nothing otherwise. -/
def contentContribution (raw : String) : List String :=
  if (pyStrip raw).isEmpty = true then []
  else if matchesTitleSimple (pyStrip raw).toList = true then []
  else [pyStrip raw]

theorem flatten_processLine (b : MultiLevelBook) (raw : String) :
    flattenBook (processLine b raw) = flattenBook b ++ contentContribution raw := by
  unfold processLine
  dsimp only
  rcases hcl : classifyLine raw with _ | _ | _ | _
  · have h := (classifyLine_blank_iff raw).mp hcl
    simp [contentContribution, h]
  · have h := (classifyLine_volume_iff raw).mp hcl
    have hm : matchesTitleSimple (pyStrip raw).data = true := h.2.1
    rw [flatten_addVolume, flatten_popEmptyLastChapter]
    simp [contentContribution, h.1, hm]
  · have h := (classifyLine_chapter_iff raw).mp hcl
    have hm : matchesTitleSimple (pyStrip raw).data = true := h.2.1
    rw [flatten_addChapter]
    simp [contentContribution, h.1, hm]
  · have h := (classifyLine_content_iff raw).mp hcl
    have hm : matchesTitleSimple (pyStrip raw).data = false := h.2
    rw [flatten_addContent]
    simp [contentContribution, h.1, hm]

theorem flatten_foldl (lines : List String) (b : MultiLevelBook) :
    flattenBook (lines.foldl processLine b) =
      flattenBook b ++ lines.flatMap contentContribution := by
  induction lines generalizing b with
  | nil => simp
  | cons l ls ih =>
    simp only [List.foldl_cons, List.flatMap_cons]
    rw [ih, flatten_processLine]
    simp

/-! ### Shapes of the builder operations on a decomposed last volume -/

theorem addVolume_not_pristine (t : String) (b : MultiLevelBook)
    (h : isInitialDefaultVolumeEmpty b = false) :
    addVolume t b = ⟨b.volumes ++ [⟨t, []⟩]⟩ := by
  unfold addVolume
  rw [if_neg (by simp [h])]

theorem pop_concat_nil (vs : List Volume) (vt : String) :
    popEmptyLastChapter ⟨vs ++ [⟨vt, []⟩]⟩ = ⟨vs ++ [⟨vt, []⟩]⟩ := by
  unfold popEmptyLastChapter
  simp only [List.getLast?_concat]
  rfl

theorem pop_concat_ch (vs : List Volume) (vt : String) (ds : List Chapter) (d : Chapter) :
    popEmptyLastChapter ⟨vs ++ [⟨vt, ds ++ [d]⟩]⟩ =
      if d.content = [] then ⟨vs ++ [⟨vt, ds⟩]⟩ else ⟨vs ++ [⟨vt, ds ++ [d]⟩]⟩ := by
  unfold popEmptyLastChapter
  simp only [List.getLast?_concat]
  by_cases h : d.content = []
  · rw [if_pos (by simp [List.isEmpty_iff, h]), if_pos h]
    rw [modifyLast_concat]
    simp [List.dropLast_concat]
  · rw [if_neg (by simp [List.isEmpty_iff, h]), if_neg h]

theorem addChapter_concat_nil (t : String) (cont : List String) (vs : List Volume)
    (vt : String) :
    addChapterToLastVolume t cont ⟨vs ++ [⟨vt, []⟩]⟩ =
      ⟨vs ++ [⟨vt, [⟨t, cont⟩]⟩]⟩ := by
  unfold addChapterToLastVolume
  dsimp only
  rw [createDefault_ne _ (by simp), modifyLast_concat]
  simp

theorem addChapter_concat_default (t : String) (cont : List String) (vs : List Volume)
    (vt : String) (ds : List Chapter) (d : Chapter)
    (hd : d.title = DEFAULT_CHAPTER_TITLE ∧ d.content = []) :
    addChapterToLastVolume t cont ⟨vs ++ [⟨vt, ds ++ [d]⟩]⟩ =
      ⟨vs ++ [⟨vt, ds ++ [⟨t, cont⟩]⟩]⟩ := by
  unfold addChapterToLastVolume
  dsimp only
  rw [createDefault_ne _ (by simp), modifyLast_concat]
  have hdef : lastChapterDefaultAndEmpty ⟨vt, ds ++ [d]⟩ = true := by
    unfold lastChapterDefaultAndEmpty
    simp [List.getLast?_concat, List.isEmpty_iff, hd.1, hd.2]
  have hne : ((ds ++ [d] : List Chapter)).isEmpty = false := by
    simp [List.isEmpty_iff]
  simp only [hdef, hne, Bool.false_or, Bool.true_and, if_true, if_neg Bool.false_ne_true]
  rw [modifyLast_concat]

theorem addChapter_concat_append (t : String) (cont : List String) (vs : List Volume)
    (vt : String) (ds : List Chapter) (d : Chapter)
    (hd : ¬(d.title = DEFAULT_CHAPTER_TITLE ∧ d.content = [])) :
    addChapterToLastVolume t cont ⟨vs ++ [⟨vt, ds ++ [d]⟩]⟩ =
      ⟨vs ++ [⟨vt, (ds ++ [d]) ++ [⟨t, cont⟩]⟩]⟩ := by
  unfold addChapterToLastVolume
  dsimp only
  rw [createDefault_ne _ (by simp), modifyLast_concat]
  have hdef : lastChapterDefaultAndEmpty ⟨vt, ds ++ [d]⟩ = false := by
    unfold lastChapterDefaultAndEmpty
    simp only [List.getLast?_concat]
    rcases Bool.eq_false_or_eq_true
        (d.title == DEFAULT_CHAPTER_TITLE && d.content.isEmpty) with h | h
    · exfalso
      apply hd
      have h1 := (Bool.and_eq_true _ _).mp h
      exact ⟨by simpa using h1.1, by simpa [List.isEmpty_iff] using h1.2⟩
    · exact h
  have hne : ((ds ++ [d] : List Chapter)).isEmpty = false := by
    simp [List.isEmpty_iff]
  simp only [hdef, hne, Bool.false_or, if_neg Bool.false_ne_true]

theorem addContent_concat_nil (line : String) (vs : List Volume) (vt : String) :
    addContentToLastChapter line ⟨vs ++ [⟨vt, []⟩]⟩ =
      ⟨vs ++ [⟨vt, [⟨DEFAULT_CHAPTER_TITLE, [line]⟩]⟩]⟩ := by
  unfold addContentToLastChapter
  dsimp only
  rw [createDefault_ne _ (by simp)]
  have hch : isLastVolumeChapterless ⟨vs ++ [⟨vt, []⟩]⟩ = true := by
    simp [isLastVolumeChapterless, List.getLast?_concat]
  rw [if_pos hch, addChapter_concat_nil, modifyLast_concat]
  simp [modifyLast]

theorem addContent_concat_ch (line : String) (vs : List Volume) (vt : String)
    (ds : List Chapter) (d : Chapter) :
    addContentToLastChapter line ⟨vs ++ [⟨vt, ds ++ [d]⟩]⟩ =
      ⟨vs ++ [⟨vt, ds ++ [⟨d.title, d.content ++ [line]⟩]⟩]⟩ := by
  unfold addContentToLastChapter
  dsimp only
  rw [createDefault_ne _ (by simp)]
  have hch : isLastVolumeChapterless ⟨vs ++ [⟨vt, ds ++ [d]⟩]⟩ = false := by
    simp [isLastVolumeChapterless, List.getLast?_concat, List.isEmpty_iff]
  rw [if_neg (by simp [hch]), modifyLast_concat, modifyLast_concat]

theorem prune_ne_nil (b : MultiLevelBook) (h : b.volumes ≠ []) :
    (prune b).volumes ≠ [] := by
  rcases back_cases b.volumes with hb | ⟨vs, v, hb⟩
  · exact absurd hb h
  · obtain ⟨bvs⟩ := b
    simp only at hb
    subst hb
    obtain ⟨vt, cs⟩ := v
    rcases back_cases cs with hc | ⟨ds, d, hc⟩
    · subst hc
      rw [prune_concat_nilch]
      split
      · next h2 => simpa using h2.2
      · simp
    · subst hc
      rw [prune_concat_chapter]
      split
      · split
        · next h2 => simpa using h2.2.2
        · simp
      · simp

/-! ### Invariant of states reachable by the builder

Chapter titles only ever come from stripped marker lines (which must
begin with `第` or `卷`) or from the default chapter sentinel, so no
chapter is ever titled with the default *volume* sentinel; an empty
default chapter is never followed by another chapter in the same volume;
and any volume other than the first cannot carry the default volume
title.  These facts make the trailing-pruning pass idempotent. -/

def Inv (b : MultiLevelBook) : Prop :=
  b.volumes ≠ [] ∧
  ∀ vs v, b.volumes = vs ++ [v] →
    (vs ≠ [] → v.title ≠ DEFAULT_VOLUME_TITLE) ∧
    (∀ c ∈ v.chapters, c.title ≠ DEFAULT_VOLUME_TITLE) ∧
    (∀ c ∈ v.chapters.dropLast, ¬(c.title = DEFAULT_CHAPTER_TITLE ∧ c.content = []))

theorem concat_inj {α : Type} {xs ys : List α} {x y : α}
    (h : xs ++ [x] = ys ++ [y]) : xs = ys ∧ x = y := by
  have h1 := congrArg List.dropLast h
  simp only [List.dropLast_concat] at h1
  have h2 := congrArg List.getLast? h
  simp only [List.getLast?_concat, Option.some.injEq] at h2
  exact ⟨h1, h2⟩

theorem inv_mk (vs : List Volume) (v : Volume)
    (h1 : vs ≠ [] → v.title ≠ DEFAULT_VOLUME_TITLE)
    (h2 : ∀ c ∈ v.chapters, c.title ≠ DEFAULT_VOLUME_TITLE)
    (h3 : ∀ c ∈ v.chapters.dropLast,
      ¬(c.title = DEFAULT_CHAPTER_TITLE ∧ c.content = [])) :
    Inv ⟨vs ++ [v]⟩ := by
  refine ⟨by simp, ?_⟩
  intro ws w hw
  simp only at hw
  obtain ⟨hws, hww⟩ := concat_inj hw.symm
  subst hws
  subst hww
  exact ⟨h1, h2, h3⟩

theorem inv_elim (vs : List Volume) (v : Volume) (h : Inv ⟨vs ++ [v]⟩) :
    (vs ≠ [] → v.title ≠ DEFAULT_VOLUME_TITLE) ∧
    (∀ c ∈ v.chapters, c.title ≠ DEFAULT_VOLUME_TITLE) ∧
    (∀ c ∈ v.chapters.dropLast,
      ¬(c.title = DEFAULT_CHAPTER_TITLE ∧ c.content = [])) :=
  h.2 vs v rfl

theorem inv_init : Inv MultiLevelBook.init := by
  show Inv ⟨[] ++ [defaultVolume]⟩
  refine inv_mk [] defaultVolume (fun h => absurd rfl h) ?_ ?_
  · intro c hc
    simp only [defaultVolume, defaultChapter, List.mem_singleton] at hc
    subst hc
    decide
  · intro c hc
    simp [defaultVolume, defaultChapter] at hc

theorem pristine_shape (b : MultiLevelBook) (h : isInitialDefaultVolumeEmpty b = true) :
    b.volumes = [⟨DEFAULT_VOLUME_TITLE, [⟨DEFAULT_CHAPTER_TITLE, []⟩]⟩] := by
  unfold isInitialDefaultVolumeEmpty at h
  obtain ⟨vs⟩ := b
  simp only at h ⊢
  match vs, h with
  | [⟨vt, cs⟩], h =>
    simp only at h
    have h1 := (Bool.and_eq_true _ _).mp h
    have hvt : vt = DEFAULT_VOLUME_TITLE := by simpa using h1.1
    match cs, h1.2 with
    | [⟨ct, cc⟩], h2 =>
      simp only at h2
      have h3 := (Bool.and_eq_true _ _).mp h2
      have hct : ct = DEFAULT_CHAPTER_TITLE := by simpa using h3.1
      have hcc : cc = [] := by simpa [List.isEmpty_iff] using h3.2
      rw [hvt, hct, hcc]

theorem inv_addVolume (t : String) (b : MultiLevelBook)
    (ht : t ≠ DEFAULT_VOLUME_TITLE) (h : Inv b) : Inv (addVolume t b) := by
  by_cases hp : isInitialDefaultVolumeEmpty b = true
  · have hb := pristine_shape b hp
    unfold addVolume
    rw [if_pos hp]
    obtain ⟨vs⟩ := b
    simp only at hb
    subst hb
    show Inv ⟨[] ++ [⟨t, [⟨DEFAULT_CHAPTER_TITLE, []⟩]⟩]⟩
    refine inv_mk _ _ (fun hc => absurd rfl hc) ?_ ?_
    · intro c hc
      simp only [List.mem_singleton] at hc
      subst hc
      decide
    · intro c hc
      simp at hc
  · rw [addVolume_not_pristine t b (by simpa using hp)]
    rcases back_cases b.volumes with hb | ⟨vs, v, hb⟩
    · exact absurd hb h.1
    · rw [hb]
      show Inv ⟨(vs ++ [v]) ++ [⟨t, []⟩]⟩
      refine inv_mk _ _ (fun _ => ht) ?_ ?_
      · intro c hc
        simp at hc
      · intro c hc
        simp at hc

theorem inv_popEmptyLastChapter (b : MultiLevelBook) (h : Inv b) :
    Inv (popEmptyLastChapter b) := by
  rcases back_cases b.volumes with hb | ⟨vs, v, hb⟩
  · exact absurd hb h.1
  · obtain ⟨bvs⟩ := b
    simp only at hb
    subst hb
    obtain ⟨vt, cs⟩ := v
    obtain ⟨h1, h2, h3⟩ := inv_elim _ _ h
    rcases back_cases cs with hc | ⟨ds, d, hc⟩
    · subst hc
      rw [pop_concat_nil]
      exact h
    · subst hc
      rw [pop_concat_ch]
      split
      · refine inv_mk _ _ h1 ?_ ?_
        · intro c hc
          exact h2 c (by simp [hc])
        · intro c hc
          have hc2 : c ∈ ds := (List.dropLast_sublist ds).subset hc
          exact h3 c (by simp [List.dropLast_concat, hc2])
      · exact h

theorem inv_addChapter (t : String) (cont : List String) (b : MultiLevelBook)
    (ht : t ≠ DEFAULT_VOLUME_TITLE) (h : Inv b) :
    Inv (addChapterToLastVolume t cont b) := by
  rcases back_cases b.volumes with hb | ⟨vs, v, hb⟩
  · exact absurd hb h.1
  · obtain ⟨bvs⟩ := b
    simp only at hb
    subst hb
    obtain ⟨vt, cs⟩ := v
    obtain ⟨h1, h2, h3⟩ := inv_elim _ _ h
    rcases back_cases cs with hc | ⟨ds, d, hc⟩
    · subst hc
      rw [addChapter_concat_nil]
      refine inv_mk _ _ h1 ?_ ?_
      · intro c hc
        simp only [List.mem_singleton] at hc
        subst hc
        exact ht
      · intro c hc
        simp at hc
    · subst hc
      by_cases hdef : d.title = DEFAULT_CHAPTER_TITLE ∧ d.content = []
      · rw [addChapter_concat_default t cont vs vt ds d hdef]
        refine inv_mk _ _ h1 ?_ ?_
        · intro c hc
          rcases List.mem_append.mp hc with hc | hc
          · exact h2 c (by simp [hc])
          · simp only [List.mem_singleton] at hc
            subst hc
            exact ht
        · intro c hc
          simp only [List.dropLast_concat] at hc
          exact h3 c (by simp [List.dropLast_concat, hc])
      · rw [addChapter_concat_append t cont vs vt ds d hdef]
        refine inv_mk _ _ h1 ?_ ?_
        · intro c hc
          rcases List.mem_append.mp hc with hc | hc
          · exact h2 c (by simp [hc])
          · simp only [List.mem_singleton] at hc
            subst hc
            exact ht
        · intro c hc
          simp only [List.dropLast_concat] at hc
          rcases List.mem_append.mp hc with hc | hc
          · exact h3 c (by simp [List.dropLast_concat, hc])
          · simp only [List.mem_singleton] at hc
            subst hc
            exact hdef

theorem inv_addContent (line : String) (b : MultiLevelBook) (h : Inv b) :
    Inv (addContentToLastChapter line b) := by
  rcases back_cases b.volumes with hb | ⟨vs, v, hb⟩
  · exact absurd hb h.1
  · obtain ⟨bvs⟩ := b
    simp only at hb
    subst hb
    obtain ⟨vt, cs⟩ := v
    obtain ⟨h1, h2, h3⟩ := inv_elim _ _ h
    rcases back_cases cs with hc | ⟨ds, d, hc⟩
    · subst hc
      rw [addContent_concat_nil]
      refine inv_mk _ _ h1 ?_ ?_
      · intro c hc
        simp only [List.mem_singleton] at hc
        subst hc
        exact (by decide : DEFAULT_CHAPTER_TITLE ≠ DEFAULT_VOLUME_TITLE)
      · intro c hc
        simp at hc
    · subst hc
      rw [addContent_concat_ch]
      refine inv_mk _ _ h1 ?_ ?_
      · intro c hc
        rcases List.mem_append.mp hc with hc | hc
        · exact h2 c (by simp [hc])
        · simp only [List.mem_singleton] at hc
          subst hc
          exact h2 d (by simp)
      · intro c hc
        simp only [List.dropLast_concat] at hc
        exact h3 c (by simp [List.dropLast_concat, hc])

theorem marker_ne_DV (s : String) (h : matchesTitleSimple s.toList = true) :
    s ≠ DEFAULT_VOLUME_TITLE := by
  intro he
  rw [he] at h
  exact absurd h (by decide)

theorem inv_processLine (b : MultiLevelBook) (raw : String) (h : Inv b) :
    Inv (processLine b raw) := by
  unfold processLine
  dsimp only
  rcases hcl : classifyLine raw with _ | _ | _ | _
  · exact h
  · have hi := (classifyLine_volume_iff raw).mp hcl
    exact inv_addVolume _ _ (marker_ne_DV _ hi.2.1) (inv_popEmptyLastChapter b h)
  · have hi := (classifyLine_chapter_iff raw).mp hcl
    exact inv_addChapter _ _ _ (marker_ne_DV _ hi.2.1) h
  · exact inv_addContent _ _ h

theorem inv_foldl (lines : List String) :
    Inv (lines.foldl processLine MultiLevelBook.init) := by
  have main : ∀ (ls : List String) (b : MultiLevelBook),
      Inv b → Inv (ls.foldl processLine b) := by
    intro ls
    induction ls with
    | nil => intro b hb; exact hb
    | cons l ls ih =>
      intro b hb
      exact ih _ (inv_processLine b l hb)
  exact main lines _ inv_init

theorem prune_idem_of_inv (b : MultiLevelBook) (h : Inv b) :
    prune (prune b) = prune b := by
  rcases back_cases b.volumes with hb | ⟨vs, v, hb⟩
  · exact absurd hb h.1
  · obtain ⟨bvs⟩ := b
    simp only at hb
    subst hb
    obtain ⟨vt, cs⟩ := v
    obtain ⟨h1, h2, h3⟩ := inv_elim _ _ h
    rcases back_cases cs with hc | ⟨ds, d, hc⟩
    · subst hc
      rw [prune_concat_nilch]
      split
      · next h4 => exact absurd h4.1 (h1 h4.2)
      · rw [prune_concat_nilch]
        split
        · next h4 => exact absurd h4.1 (h1 h4.2)
        · rfl
    · subst hc
      rw [prune_concat_chapter]
      split
      · next hcond =>
        split
        · next h4 => exact absurd h4.2.1 (h1 h4.2.2)
        · rcases back_cases ds with hd | ⟨es, e, hd⟩
          · subst hd
            rw [prune_concat_nilch]
            split
            · next h4 => exact absurd h4.1 (h1 h4.2)
            · rfl
          · subst hd
            have he : e ∈ ((es ++ [e]) ++ [d] : List Chapter).dropLast := by
              simp [List.dropLast_concat]
            have heDV : e.title ≠ DEFAULT_VOLUME_TITLE := h2 e (by simp)
            have heDC : ¬(e.title = DEFAULT_CHAPTER_TITLE ∧ e.content = []) := h3 e he
            rw [prune_concat_chapter]
            rw [if_neg ?hne]
            case hne =>
              intro hx
              rcases hx.2 with hx2 | hx2
              · exact heDC ⟨hx2, hx.1⟩
              · exact heDV hx2
      · next hcond =>
        rw [prune_concat_chapter, if_neg hcond]

/-! ### Characterization of the simple title regex -/

theorem unitChar_not_numeral (d : Char) (h : isUnitChar d = true) :
    isNumeralChar d = false := by
  unfold isUnitChar at h
  have hd : d ∈ unitChars := of_decide_eq_true h
  have hall : ∀ c ∈ unitChars, isNumeralChar c = false := by decide
  exact hall d hd

theorem prefixChar_not_space (p : Char) (h : p = '第' ∨ p = '卷') :
    isPySpace p = false := by
  rcases h with h | h <;> subst h <;> decide

theorem matchesTitleSimple_iff (cs : List Char) :
    matchesTitleSimple cs = true ↔
      ∃ ws p ns d t, cs = ws ++ p :: (ns ++ d :: t) ∧
        (∀ c ∈ ws, isPySpace c = true) ∧ (p = '第' ∨ p = '卷') ∧
        ns ≠ [] ∧ (∀ c ∈ ns, isNumeralChar c = true) ∧ isUnitChar d = true := by
  constructor
  · intro h
    unfold matchesTitleSimple at h
    rcases hdw : cs.dropWhile isPySpace with _ | ⟨c, rest⟩
    · rw [hdw] at h
      simp at h
    · rw [hdw] at h
      have h1 := (Bool.and_eq_true _ _).mp h
      have h2 := (Bool.and_eq_true _ _).mp h1.1
      have hp : c = '第' ∨ c = '卷' := by
        rcases (Bool.or_eq_true _ _).mp h2.1 with hx | hx
        · exact Or.inl (by simpa using hx)
        · exact Or.inr (by simpa using hx)
      have hns : rest.takeWhile isNumeralChar ≠ [] := by
        intro hx
        rw [List.isEmpty_iff.mpr hx] at h2
        simpa using h2.2
      rcases hdd : rest.dropWhile isNumeralChar with _ | ⟨d, t⟩
      · rw [hdd] at h1
        simp at h1
      · rw [hdd] at h1
        refine ⟨cs.takeWhile isPySpace, c, rest.takeWhile isNumeralChar, d, t, ?_, ?_, hp, hns, ?_, ?_⟩
        · rw [← hdd, List.takeWhile_append_dropWhile, ← hdw, List.takeWhile_append_dropWhile]
        · intro x hx
          exact List.mem_takeWhile_imp hx
        · intro x hx
          exact List.mem_takeWhile_imp hx
        · exact h1.2
  · rintro ⟨ws, p, ns, d, t, rfl, hws, hp, hns, hnum, hunit⟩
    unfold matchesTitleSimple
    have hdw : ((ws ++ p :: (ns ++ d :: t)).dropWhile isPySpace) = p :: (ns ++ d :: t) := by
      rw [dropWhile_append_all isPySpace ws _ hws]
      rw [List.dropWhile_cons, if_neg (by simp [prefixChar_not_space p hp])]
    rw [hdw]
    obtain ⟨htw, hdw2⟩ :=
      takeWhile_append_run isNumeralChar ns t d hnum (unitChar_not_numeral d hunit)
    dsimp only
    rw [htw, hdw2]
    have hpb : (p = '第' || p = '卷') = true := by
      rcases hp with hp | hp <;> simp [hp]
    simp [hpb, List.isEmpty_iff, hns, hunit]
/-! ### Claims -/

/-- C1: for every input line sequence, concatenating the content lines of
all chapters in hierarchy traversal order (volumes in sequence, chapters
within each volume in sequence) yields exactly the sequence of input
lines that are non-blank after trimming and do not match the
structural-marker pattern, each trimmed, in original input order. -/
theorem claim_C1_content_lines_preserved (lines : List String) :
    flattenBook (parseLines lines) =
      lines.filterMap (fun raw =>
        if (pyStrip raw).isEmpty = true then none
        else if matchesTitleSimple (pyStrip raw).toList = true then none
        else some (pyStrip raw)) := by
  unfold parseLines
  rw [flatten_prune, flatten_foldl]
  have h0 : flattenBook MultiLevelBook.init = [] := rfl
  rw [h0, List.nil_append]
  induction lines with
  | nil => rfl
  | cons l ls ih =>
    simp only [List.flatMap_cons, List.filterMap_cons]
    rw [ih]
    unfold contentContribution
    split_ifs <;> simp

/-- C2: the code, run on the scenario-B input, does NOT produce a single
volume: the initial default volume loses its seeded chapter to the
empty-chapter pop that precedes `add_volume`, which defeats the
pristine-state rename check, so a chapterless `默认卷` volume survives in
front of `第一卷 风起`.  This theorem evaluates the parser at the claim
failing input. -/
theorem claim_C2_scenario_B_actual :
    parseLines ["第一卷 风起", "第一章 序", "正文内容"] =
      ⟨[⟨DEFAULT_VOLUME_TITLE, []⟩,
        ⟨"第一卷 风起", [⟨"第一章 序", ["正文内容"]⟩]⟩]⟩ ∧
    (parseLines ["第一卷 风起", "第一章 序", "正文内容"]).volumes.length = 2 := by
  decide

/-- C3 counterexample: on the input `第一卷 甲` / `第一章 序` a volume with
zero chapters (`默认卷`) survives although more than one volume exists, so
it is not the sole exception permitted by the more-than-one-volume guard. -/
theorem claim_C3_counterexample :
    ¬(∀ v ∈ (parseLines ["第一卷 甲", "第一章 序"]).volumes,
        v.chapters ≠ [] ∨
        ((parseLines ["第一卷 甲", "第一章 序"]).volumes.length = 1 ∧
         v.title = DEFAULT_VOLUME_TITLE)) := by
  decide

/-- C3 amended: for every input line sequence the resulting hierarchy
contains at least one volume; volumes with zero chapters can however
survive whenever they are not the last volume, not only in the case
permitted by the more-than-one-volume guard. -/
theorem claim_C3_amended_at_least_one_volume (lines : List String) :
    (parseLines lines).volumes ≠ [] := by
  unfold parseLines
  exact prune_ne_nil _ (inv_foldl lines).1

/-- C4: the code, run on the scenario-C input, produces THREE volumes,
not two: besides `第一卷 甲` (surviving with zero chapters, as the claim
says) the chapterless initial `默认卷` also survives, for the same reason
as in scenario B.  This theorem evaluates the parser at the claim
failing input. -/
theorem claim_C4_scenario_C_actual :
    parseLines ["第一卷 甲", "第二卷 乙", "第一章 序", "内容"] =
      ⟨[⟨DEFAULT_VOLUME_TITLE, []⟩, ⟨"第一卷 甲", []⟩,
        ⟨"第二卷 乙", [⟨"第一章 序", ["内容"]⟩]⟩]⟩ ∧
    (parseLines ["第一卷 甲", "第二卷 乙", "第一章 序", "内容"]).volumes.length = 3 := by
  decide

/-- C5 counterexample: the trimmed line `一章 序` has the claim shape
(numeral immediately followed by a unit character, then trailing text)
yet the classifier does not treat it as a marker, because the regex
additionally requires a leading `第` or `卷` before the numeral. -/
theorem claim_C5_counterexample :
    specMarkerShape "一章 序".toList = true ∧
    matchesTitleSimple "一章 序".toList = false := by
  decide

/-- C5 amended: a line is classified as a structural marker if and only
if it consists of optional leading whitespace, then one of the characters
`第` or `卷`, then one or more numeral characters (Arabic digits or the
Chinese numerals), then one of the unit characters
卷/章/回/部/节/集/篇/辑, followed by arbitrary trailing text. -/
theorem claim_C5_amended_marker_shape (cs : List Char) :
    matchesTitleSimple cs = true ↔
      ∃ ws p ns d t, cs = ws ++ p :: (ns ++ d :: t) ∧
        (∀ c ∈ ws, isPySpace c = true) ∧ (p = '第' ∨ p = '卷') ∧
        ns ≠ [] ∧ (∀ c ∈ ns, isNumeralChar c = true) ∧ isUnitChar d = true :=
  matchesTitleSimple_iff cs

/-- C6: for a line classified as a structural marker, the entire trimmed
line is the candidate title; it is classified as a volume title exactly
when it contains `卷` and none of `章`, `回`, `节`, and as a chapter title
in every other case; the corresponding builder call receives the whole
trimmed line as the title. -/
theorem claim_C6_volume_chapter_heuristic (raw : String)
    (h1 : (pyStrip raw).isEmpty = false)
    (h2 : matchesTitleSimple (pyStrip raw).toList = true) :
    (classifyLine raw = LineClass.volumeTitle ↔
      ('卷' ∈ (pyStrip raw).toList ∧ '章' ∉ (pyStrip raw).toList ∧
       '回' ∉ (pyStrip raw).toList ∧ '节' ∉ (pyStrip raw).toList)) ∧
    (classifyLine raw = LineClass.chapterTitle ↔
      ¬('卷' ∈ (pyStrip raw).toList ∧ '章' ∉ (pyStrip raw).toList ∧
        '回' ∉ (pyStrip raw).toList ∧ '节' ∉ (pyStrip raw).toList)) ∧
    (∀ b, classifyLine raw = LineClass.volumeTitle →
      processLine b raw = addVolume (pyStrip raw) (popEmptyLastChapter b)) ∧
    (∀ b, classifyLine raw = LineClass.chapterTitle →
      processLine b raw = addChapterToLastVolume (pyStrip raw) [] b) := by
  have hheur : isVolumeHeuristic (pyStrip raw) = true ↔
      ('卷' ∈ (pyStrip raw).toList ∧ '章' ∉ (pyStrip raw).toList ∧
       '回' ∉ (pyStrip raw).toList ∧ '节' ∉ (pyStrip raw).toList) := by
    unfold isVolumeHeuristic
    simp [and_assoc]
  have hm : matchesTitleSimple (pyStrip raw).data = true := h2
  refine ⟨?_, ?_, ?_, ?_⟩
  · rw [classifyLine_volume_iff, ← hheur]
    simp [h1, hm]
  · rw [classifyLine_chapter_iff, ← hheur]
    simp [h1, hm]
  · intro b hcl
    unfold processLine
    dsimp only
    rw [hcl]
  · intro b hcl
    unfold processLine
    dsimp only
    rw [hcl]

/-- Witness for C6 at the concrete marker lines `第一卷 上` (volume) and
`第一章 序` (chapter). -/
theorem claim_C6_witness :
    classifyLine "第一卷 上" = LineClass.volumeTitle ∧
    processLine MultiLevelBook.init "第一卷 上" =
      addVolume (pyStrip "第一卷 上") (popEmptyLastChapter MultiLevelBook.init) ∧
    classifyLine "第一章 序" = LineClass.chapterTitle := by
  have hv := claim_C6_volume_chapter_heuristic "第一卷 上" (by decide) (by decide)
  have hc := claim_C6_volume_chapter_heuristic "第一章 序" (by decide) (by decide)
  have hv1 : classifyLine "第一卷 上" = LineClass.volumeTitle := hv.1.mpr (by decide)
  exact ⟨hv1, hv.2.2.1 MultiLevelBook.init hv1, hc.2.1.mpr (by decide)⟩

/-- C7: after the input is consumed, the pruning pass removes the last
volume last chapter exactly when its content is empty and its title is
one of the two sentinels, and then removes the last volume exactly when
it is left with zero chapters, is titled with the default-volume
sentinel, and more than one volume exists (`vs ≠ []`). -/
theorem claim_C7_prune_characterization (vs : List Volume) (t : String)
    (chs : List Chapter) :
    prune ⟨vs ++ [⟨t, chs⟩]⟩ =
      (match chs.getLast? with
       | some c =>
         if c.content = [] ∧
            (c.title = DEFAULT_CHAPTER_TITLE ∨ c.title = DEFAULT_VOLUME_TITLE) then
           (if chs.dropLast = [] ∧ t = DEFAULT_VOLUME_TITLE ∧ vs ≠ [] then
              (⟨vs⟩ : MultiLevelBook)
            else ⟨vs ++ [⟨t, chs.dropLast⟩]⟩)
         else ⟨vs ++ [⟨t, chs⟩]⟩
       | none =>
         if t = DEFAULT_VOLUME_TITLE ∧ vs ≠ [] then (⟨vs⟩ : MultiLevelBook)
         else ⟨vs ++ [⟨t, chs⟩]⟩) := by
  rcases back_cases chs with hc | ⟨ds, d, hc⟩
  · subst hc
    rw [prune_concat_nilch]
    rfl
  · subst hc
    rw [prune_concat_chapter]
    simp only [List.getLast?_concat, List.dropLast_concat]

/-- C8: the trailing-pruning pass is idempotent on every hierarchy state
reachable by the builder at end of input (`parseLines` already applies
the pass once; applying it again changes nothing). -/
theorem claim_C8_prune_idempotent (lines : List String) :
    prune (parseLines lines) = parseLines lines := by
  unfold parseLines
  exact prune_idem_of_inv _ (inv_foldl lines)

theorem readLoop_err (b : MultiLevelBook) (events : List ReadEvent)
    (h : ReadEvent.err ∈ events) : readLoop b events = none := by
  induction events generalizing b with
  | nil => simp at h
  | cons e es ih =>
    cases e with
    | line s =>
      have hes : ReadEvent.err ∈ es := by
        rcases List.mem_cons.mp h with hx | hx
        · exact absurd hx (by simp)
        · exact hx
      exact ih (processLine b s) hes
    | err => rfl

/-- C9: when the source cannot be opened, or a read/decode error is
raised mid-stream, `TextBookParser.read` returns `none` — the half-built
hierarchy is discarded, never returned. -/
theorem claim_C9_read_failure (events : List ReadEvent) :
    TextBookParser.read false events = none ∧
    (ReadEvent.err ∈ events → TextBookParser.read true events = none) := by
  constructor
  · rfl
  · intro hmem
    unfold TextBookParser.read
    rw [if_pos rfl]
    exact readLoop_err MultiLevelBook.init events hmem

/-- Witness for C9 at a concrete event stream with a mid-stream error. -/
theorem claim_C9_witness :
    TextBookParser.read false [ReadEvent.line "a", ReadEvent.err] = none ∧
    TextBookParser.read true [ReadEvent.line "a", ReadEvent.err] = none := by
  have h := claim_C9_read_failure [ReadEvent.line "a", ReadEvent.err]
  exact ⟨h.1, h.2 (by decide)⟩

/-- C10: parsing empty input returns exactly one volume, titled with the
default-volume sentinel, with an empty chapter sequence: the seeded
default chapter is pruned, but the seeded volume survives because the
more-than-one-volume guard blocks its removal. -/
theorem claim_C10_empty_input :
    parseLines [] = ⟨[⟨DEFAULT_VOLUME_TITLE, []⟩]⟩ := by
  decide

end TxtToEpub
